import Mathlib

/-!
Shallow embedding of the NdLife repository (Conway's Game of Life variants).

Boards are rectangular lists of lists of booleans (alive = true).  Cell
indices are pairs of integers, matching the 2-tuples the 2D engine builds;
array reads model numpy indexing, where a negative coordinate `n` with
`-d <= n < 0` addresses position `n + d` (all reads arising in the modelled
flows stay inside that range).  The stateful `LifeSpace` class becomes a
structure with explicit state passing: `step` returns the updated engine.
-/

/-- Resolution of one numpy index coordinate against an axis extent:
a negative coordinate counts from the end of the axis. -/
def resolveIdx (d : Nat) (n : Int) : Nat :=
  if n < 0 then (n + d).toNat else n.toNat

/-- Read of `space[index]` for a 2D numpy array, with Python's
negative-index semantics on each coordinate. -/
def getCell (space : List (List Bool)) (index : Int × Int) : Bool :=
  let row := space.getD (resolveIdx space.length index.1) []
  row.getD (resolveIdx row.length index.2) false

/-- Read of a board cell at a plain nonnegative position. -/
def getN (b : List (List Bool)) (p : Nat × Nat) : Bool :=
  (b.getD p.1 []).getD p.2 false

/-- State of the 2D engine `LifeSpace` from src/utilities/life_2d.py. -/
structure LifeSpace where
  space : List (List Bool)
  wrap : Bool
  track : Bool
  hist : List (List (List Bool))
deriving DecidableEq

/-- Constructor `LifeSpace.__init__`: stores the board and flags and
initialises the history with the initial board. -/
def LifeSpace.init (space : List (List Bool)) (wrap track : Bool) : LifeSpace :=
  ⟨space, wrap, track, [space]⟩

/-- First component of `np.shape(self.space)`. -/
def LifeSpace.d1 (s : LifeSpace) : Nat := s.space.length

/-- Second component of `np.shape(self.space)` (length of the first row;
boards in all modelled flows are rectangular). -/
def LifeSpace.d2 (s : LifeSpace) : Nat := (s.space.headD []).length

/-- Index list `ind_list`: all pairs (i, j) with i < d1, j < d2, row major. -/
def indList (d1 d2 : Nat) : List (Nat × Nat) :=
  (List.range d1).flatMap fun i => (List.range d2).map fun j => (i, j)

/-- Truthiness of `any(index)` in Python for a 2-tuple of integers:
true iff some coordinate is nonzero. -/
def pyAnyPair (p : Int × Int) : Bool := p.1 != 0 || p.2 != 0

/-- Method `check_valid_index`.  The source line `if any(index) < 0:`
compares the boolean `any(index)` (an int 0 or 1 in Python) with 0, which
is never negative; the remaining loop rejects a coordinate exceeding its
axis extent minus one. -/
def LifeSpace.check_valid_index (s : LifeSpace) (index : Int × Int) : Bool :=
  if (if pyAnyPair index then (1 : Int) else 0) < 0 then false
  else if index.1 > (s.d1 : Int) - 1 then false
  else if index.2 > (s.d2 : Int) - 1 then false
  else true

/-- Method `wrap_switch`: low end maps to `d-1`, high end maps to `0`. -/
def wrap_switch (n : Int) (d : Nat) : Int :=
  if n < 0 then (d : Int) - 1
  else if n > (d : Int) - 1 then 0
  else n

/-- Method `wrap_index`: `wrap_switch` applied on each axis. -/
def LifeSpace.wrap_index (s : LifeSpace) (index : Int × Int) : Int × Int :=
  (wrap_switch index.1 s.d1, wrap_switch index.2 s.d2)

/-- Candidate neighbour offsets of `get_neighbors`: the Cartesian product
of `(n-1, n, n+1)` over the two coordinates, in the source's order. -/
def neighborCands (index : Int × Int) : List (Int × Int) :=
  [index.1 - 1, index.1, index.1 + 1].flatMap fun a =>
    [index.2 - 1, index.2, index.2 + 1].map fun b => (a, b)

/-- Method `get_neighbors`: builds the nine candidates, removes the cell's
own index (`list.remove` drops the first occurrence), then either wraps
every candidate or filters by `check_valid_index`. -/
def LifeSpace.get_neighbors (s : LifeSpace) (index : Int × Int) : List (Int × Int) :=
  let cands := (neighborCands index).erase index
  if s.wrap then cands.map s.wrap_index
  else cands.filter s.check_valid_index

/-- Method `count_live_neighbors`: sum of the board values at the given
neighbour indices. -/
def LifeSpace.count_live_neighbors (s : LifeSpace) (neighbors : List (Int × Int)) : Nat :=
  (neighbors.map fun nb => if getCell s.space nb then 1 else 0).sum

/-- Method `check_live`: classical rules, survival on 2 or 3 live
neighbours, birth on exactly 3. -/
def check_live (live : Bool) (n_count : Nat) : Bool :=
  if live then
    if n_count == 2 || n_count == 3 then true else false
  else
    if n_count == 3 then true
    else false

/-- Method `get_next_cell`: neighbour lookup, live count, rule evaluation. -/
def LifeSpace.get_next_cell (s : LifeSpace) (index : Int × Int) : Bool :=
  check_live (getCell s.space index) (s.count_live_neighbors (s.get_neighbors index))

/-- Single write `new_space[index] = v` at a nonnegative position. -/
def setCell (space : List (List Bool)) (i j : Nat) (v : Bool) : List (List Bool) :=
  space.set i ((space.getD i []).set j v)

/-- Fresh array of shape (d1, d2) standing for `np.empty(shape=self.dims)`
(every position is overwritten before the result is read). -/
def emptyBoard (d1 d2 : Nat) : List (List Bool) :=
  List.replicate d1 (List.replicate d2 false)

/-- Method `get_next_space`: allocates a fresh array and writes
`get_next_cell(index)` at every index of `ind_list`. -/
def LifeSpace.get_next_space (s : LifeSpace) : List (List Bool) :=
  (indList s.d1 s.d2).foldl
    (fun ns p => setCell ns p.1 p.2 (s.get_next_cell ((p.1 : Int), (p.2 : Int))))
    (emptyBoard s.d1 s.d2)

/-- Method `step`: replaces the board with `get_next_space` and, when
tracking, appends the new board to the history. -/
def LifeSpace.step (s : LifeSpace) : LifeSpace :=
  let ns := s.get_next_space
  { s with space := ns, hist := if s.track then s.hist ++ [ns] else s.hist }

/-- One cell of `LifeViewer.get_view`: the source runs two independent
`if` statements, appending a zero when alive and a space when dead. -/
def viewCell (r : String) (j : Bool) : String :=
  let r1 := if j then r ++ "0" else r
  if !j then r1 ++ " " else r1

/-- Method `LifeViewer.get_view`: accumulates over rows and cells, with a
newline after every row. -/
def get_view (grid : List (List Bool)) : String :=
  grid.foldl (fun r row => row.foldl viewCell r ++ "\n") ""

/-- Rendering of one row as the specification describes it: one character
per cell, `0` alive, space dead. -/
def specRowText : List Bool → String
  | [] => ""
  | c :: cs => (if c then "0" else " ") ++ specRowText cs

/-- Rendering of a board as the specification describes it: each row's
characters followed by a newline. -/
def specView : List (List Bool) → String
  | [] => ""
  | row :: rows => specRowText row ++ "\n" ++ specView rows

/-- Threshold fields set by `LifeND.make_rules` in src/utilities/life_nd.py,
together with the three found-flags; `none` means the attribute was never
assigned during the scan. -/
structure RuleState where
  low_rule : Option Int
  high_rule : Option Int
  res_low : Option Int
  res_high : Option Int
  low_found : Bool
  high_found : Bool
  res_high_found : Bool
deriving DecidableEq

/-- Initial state of the `make_rules` scan: no threshold assigned. -/
def make_rules_start : RuleState :=
  ⟨none, none, none, none, false, false, false⟩

/-- Body of the `make_rules` loop for one value of `i`, with
`ps_i = i / num_neighbors` and the proportionality constants 1/4, 3/8 and
1/2 as exact rationals (in the source these are floats, but every value
compared is an exact binary fraction, so the comparisons agree). -/
def make_rules_update (num_neighbors : Nat) (st : RuleState) (i : Nat) : RuleState :=
  let ps_i : ℚ := (i : ℚ) / (num_neighbors : ℚ)
  let st1 :=
    if st.low_found = false ∧ 1/4 ≤ ps_i then
      { st with low_rule := some (i : Int), low_found := true }
    else st
  let st2 :=
    if st1.high_found = false then
      if ps_i = 3/8 then
        { st1 with high_rule := some (i : Int), res_low := some (i : Int), high_found := true }
      else if 3/8 < ps_i then
        { st1 with high_rule := some ((i : Int) - 1), res_low := some ((i : Int) - 1),
                   high_found := true }
      else st1
    else st1
  if st2.res_high_found = false ∧ 1/2 ≤ ps_i then
    { st2 with res_high := some ((i : Int) - 1), res_high_found := true }
  else st2

/-- Scan of `make_rules` over `range(scan)`.  In the source the loop runs
over `range(self.dims)` and breaks once all three flags hold; the break
only skips iterations in which the guarded updates change nothing, so the
plain fold computes the same final state.  The scan bound is a parameter
because the source's own bound is ill-typed: `self.dims` is the shape
tuple `np.shape(space)`, so both `pow(3, self.dims)` and
`range(self.dims)` raise TypeError (and `math.pow` returns a float, so
even a numeric `dims` leaves `range(num_neighbors)` ill-typed). -/
def make_rules_scan (num_neighbors scan : Nat) : RuleState :=
  (List.range scan).foldl (make_rules_update num_neighbors) make_rules_start

/-- State of `VectorLife` from src/utilities/vectorized_life.py; `tape` is
`none` when tracking is off (the source stores `None`). -/
structure VectorLife where
  board : List (List Bool)
  wrap : Bool
  track : Bool
  tape : Option (List (List (List Bool)))
deriving DecidableEq

/-- Constructor `VectorLife.__init__`. -/
def VectorLife.init (board : List (List Bool)) (wrap track : Bool) : VectorLife :=
  ⟨board, wrap, track, if track then some [board] else none⟩

/-- Method `VectorLife.step`: the body is `pass`, so the state is
returned unchanged. -/
def VectorLife.step (v : VectorLife) : VectorLife := v

/-- One iteration of the `VectorLife.run` loop: call `step`, then append
the current board to the tape when tracking. -/
def VectorLife.runIter (v : VectorLife) : VectorLife :=
  let w := v.step
  if w.track then { w with tape := w.tape.map fun t => t ++ [w.board] } else w

/-- Method `VectorLife.run(g)`: the loop body `g` times. -/
def VectorLife.run (v : VectorLife) (g : Nat) : VectorLife :=
  VectorLife.runIter^[g] v

/-- Shape predicate: a board with `d1` rows, each of length `d2`. -/
def Rect (b : List (List Bool)) (d1 d2 : Nat) : Prop :=
  b.length = d1 ∧ ∀ k < d1, (b.getD k []).length = d2

/-- A 4x4 all-dead board. -/
def allDead44 : List (List Bool) := List.replicate 4 (List.replicate 4 false)

/-- Engine over the 4x4 all-dead board, wrap and track disabled. -/
def sAllDead44 : LifeSpace := LifeSpace.init allDead44 false false

/-- The 4x4 board whose four centre cells (rows 1-2, columns 1-2) are alive. -/
def blockBoard : List (List Bool) :=
  [[false, false, false, false],
   [false, true,  true,  false],
   [false, true,  true,  false],
   [false, false, false, false]]

/-- Engine over the block board, wrap disabled, no tracking. -/
def sBlock : LifeSpace := LifeSpace.init blockBoard false false

/-- Engine over a 1x1 all-alive board with wrap enabled. -/
def sOne : LifeSpace := LifeSpace.init [[true]] true false

/-- Engine over a 2x2 all-alive board with wrap enabled. -/
def sTwo : LifeSpace := LifeSpace.init [[true, true], [true, true]] true false

/-- Engine over a 3x3 board whose only live cell is the far corner (2,2),
wrap disabled. -/
def sCorner : LifeSpace :=
  LifeSpace.init [[false, false, false], [false, false, false], [false, false, true]] false false

/-- Engine over the 2x2 diagonal board, wrap and track disabled. -/
def sDiag : LifeSpace := LifeSpace.init [[true, false], [false, true]] false false

/-- C1: the claim states that `check_valid_index` rejects every index with
a negative coordinate; the code accepts (-1, 0) on a 4x4 board because
`any(index) < 0` compares a boolean with 0 and never fires. -/
theorem check_valid_index_accepts_negative :
    sAllDead44.check_valid_index (-1, 0) = true ∧ ((-1 : Int) < 0) := by
  decide

/-- Helper: the fixed point of `step` on the block board. -/
theorem sBlock_step_fixed : sBlock.step = sBlock := by decide

/-- C3: the 4x4 centred 2x2 block with wrap disabled is unchanged by
`step`, and remains equal to itself after any number of steps. -/
theorem block_still_life :
    sBlock.step.space = blockBoard ∧
    ∀ N : Nat, ((LifeSpace.step)^[N] sBlock).space = blockBoard := by
  constructor
  · rw [sBlock_step_fixed]; rfl
  · intro N
    rw [Function.iterate_fixed sBlock_step_fixed]; rfl

/-- C8: with the source's scan bound (the loop runs over `range(dims)`
with dimensionality 2), none of the four thresholds is ever assigned, so
no survival or resurrection band exists; scanning the full proportion
table of `num_neighbors = 8` entries, as the claim requires, would give
survival band [2,3] and resurrection band [3,3]. -/
theorem make_rules_scan_defect :
    make_rules_scan 8 2 = ⟨none, none, none, none, false, false, false⟩ ∧
    make_rules_scan 8 8 = ⟨some 2, some 3, some 3, some 3, true, true, true⟩ := by
  constructor <;>
    norm_num [make_rules_scan, List.range_succ, make_rules_update, make_rules_start]

/-- Helper: `run` on a tracking `VectorLife` only replicates the initial
board into the tape. -/
theorem vec_run_tape (b : List (List Bool)) (w : Bool) (g : Nat) :
    (VectorLife.init b w true).run g =
      ⟨b, w, true, some (List.replicate (g + 1) b)⟩ := by
  induction g with
  | zero => rfl
  | succ n ih =>
    rw [VectorLife.run, Function.iterate_succ_apply', ← VectorLife.run, ih]
    simp [VectorLife.runIter, VectorLife.step, List.replicate_succ']

/-- C9: `VectorLife.step` changes no field, and `run g` with tracking
enabled leaves the board unchanged and produces a tape of g+1 entries all
equal to the initial board. -/
theorem vector_step_frame_and_run :
    (∀ v : VectorLife, v.step = v) ∧
    ∀ (b : List (List Bool)) (w : Bool) (g : Nat),
      ((VectorLife.init b w true).run g).board = b ∧
      ((VectorLife.init b w true).run g).tape = some (List.replicate (g + 1) b) := by
  refine ⟨fun v => rfl, fun b w g => ?_⟩
  rw [vec_run_tape]
  exact ⟨rfl, rfl⟩

/-- Helper: folding `viewCell` over one row appends one character per
cell, `0` when alive and a space when dead. -/
theorem foldl_viewCell (row : List Bool) (r : String) :
    row.foldl viewCell r = r ++ specRowText row := by
  induction row generalizing r with
  | nil => simp [specRowText]
  | cons c cs ih =>
    rw [List.foldl_cons, specRowText, ih]
    cases c <;> simp [viewCell, String.append_assoc]

/-- Helper: the outer fold of `get_view` appends each row's text followed
by a newline. -/
theorem foldl_viewRows (rows : List (List Bool)) (r : String) :
    rows.foldl (fun acc row => row.foldl viewCell acc ++ "\n") r = r ++ specView rows := by
  induction rows generalizing r with
  | nil => simp [specView]
  | cons row rs ih =>
    rw [List.foldl_cons, specView, ih, foldl_viewCell]
    simp [String.append_assoc]

/-- C10: `get_view` renders row by row, one `0` per live cell, one space
per dead cell, a newline after each row; on the 2x2 diagonal board it
produces exactly "0 \n 0\n". -/
theorem get_view_renders_rows :
    (∀ grid : List (List Bool), get_view grid = specView grid) ∧
    get_view [[true, false], [false, true]] = "0 \n 0\n" := by
  constructor
  · intro grid
    rw [get_view, foldl_viewRows, String.empty_append]
  · decide

/-- Helper: `step` preserves the tracking flag. -/
theorem step_track (s : LifeSpace) : s.step.track = s.track := rfl

/-- Helper: with tracking on, `step` appends the new board to the
history. -/
theorem step_hist_of_track (s : LifeSpace) (h : s.track = true) :
    s.step.hist = s.hist ++ [s.step.space] := by
  simp [LifeSpace.step, h]

/-- Helper: iterating `step` preserves the tracking flag. -/
theorem iterate_step_track (s : LifeSpace) (N : Nat) :
    ((LifeSpace.step)^[N] s).track = s.track := by
  induction N with
  | zero => rfl
  | succ n ih =>
    rw [Function.iterate_succ_apply', step_track]
    exact ih

/-- C6: with tracking enabled, after N steps the history holds exactly
N+1 boards and its last entry is the engine's current board. -/
theorem hist_tracking_invariant (b : List (List Bool)) (w : Bool) (N : Nat) :
    ((LifeSpace.step)^[N] (LifeSpace.init b w true)).hist.length = N + 1 ∧
    ((LifeSpace.step)^[N] (LifeSpace.init b w true)).hist.getLast? =
      some (((LifeSpace.step)^[N] (LifeSpace.init b w true)).space) := by
  induction N with
  | zero => exact ⟨rfl, rfl⟩
  | succ n ih =>
    have htr : ((LifeSpace.step)^[n] (LifeSpace.init b w true)).track = true :=
      iterate_step_track _ n
    rw [Function.iterate_succ_apply', step_hist_of_track _ htr]
    refine ⟨?_, List.getLast?_concat _⟩
    rw [List.length_append, ih.1]
    rfl

/-- Helper: the fresh array has the requested rectangular shape. -/
theorem rect_emptyBoard (d1 d2 : Nat) : Rect (emptyBoard d1 d2) d1 d2 := by
  refine ⟨by simp [emptyBoard], fun k hk => ?_⟩
  simp [emptyBoard, List.getD_eq_getElem?_getD, List.getElem?_replicate, hk]

/-- Helper: `getD` after an in-bounds `set` at the same position. -/
theorem getD_set_self {α : Type} (l : List α) (i : Nat) (a d : α) (h : i < l.length) :
    (l.set i a).getD i d = a := by
  simp [List.getD_eq_getElem?_getD, List.getElem?_set_self h]

/-- Helper: `getD` after a `set` at a different position. -/
theorem getD_set_ne {α : Type} (l : List α) (i k : Nat) (a d : α) (h : i ≠ k) :
    (l.set i a).getD k d = l.getD k d := by
  simp [List.getD_eq_getElem?_getD, List.getElem?_set_ne h]

/-- Helper: a cell write preserves the rectangular shape. -/
theorem rect_setCell (b : List (List Bool)) (d1 d2 i j : Nat) (v : Bool)
    (hr : Rect b d1 d2) : Rect (setCell b i j v) d1 d2 := by
  obtain ⟨hl, hrow⟩ := hr
  refine ⟨by simp [setCell, hl], fun k hk => ?_⟩
  by_cases hik : i = k
  · subst hik
    have hlen : i < b.length := by omega
    rw [setCell, getD_set_self _ _ _ _ hlen, List.length_set]
    exact hrow i hk
  · rw [setCell, getD_set_ne _ _ _ _ _ hik]
    exact hrow k hk

/-- Helper: reading back an in-bounds cell write. -/
theorem getN_setCell_same (b : List (List Bool)) (d1 d2 i j : Nat) (v : Bool)
    (hr : Rect b d1 d2) (hi : i < d1) (hj : j < d2) :
    getN (setCell b i j v) (i, j) = v := by
  obtain ⟨hl, hrow⟩ := hr
  have hlen : i < b.length := by omega
  show ((setCell b i j v).getD i []).getD j false = v
  rw [setCell, getD_set_self _ _ _ _ hlen]
  rw [getD_set_self _ _ _ _ (by rw [hrow i hi]; exact hj)]

/-- Helper: a cell write leaves every other position unchanged. -/
theorem getN_setCell_ne (b : List (List Bool)) (i j : Nat) (v : Bool)
    (p : Nat × Nat) (hp : p ≠ (i, j)) :
    getN (setCell b i j v) p = getN b p := by
  obtain ⟨p1, p2⟩ := p
  by_cases h1 : p1 = i
  · subst h1
    have h2 : j ≠ p2 := fun h => hp (by rw [h])
    by_cases hlen : p1 < b.length
    · show ((setCell b p1 j v).getD p1 []).getD p2 false = (b.getD p1 []).getD p2 false
      rw [setCell, getD_set_self _ _ _ _ hlen, getD_set_ne _ _ _ _ _ h2]
    · rw [setCell, List.set_eq_of_length_le (Nat.le_of_not_lt hlen)]
  · show ((setCell b i j v).getD p1 []).getD p2 false = (b.getD p1 []).getD p2 false
    rw [setCell, getD_set_ne _ _ _ _ _ (fun h => h1 h.symm)]

/-- Helper: a fold of cell writes does not touch positions outside the
written list. -/
theorem foldSet_not_mem (f : Nat × Nat → Bool) (L : List (Nat × Nat))
    (b : List (List Bool)) (p : Nat × Nat) (hp : p ∉ L) :
    getN (L.foldl (fun ns q => setCell ns q.1 q.2 (f q)) b) p = getN b p := by
  induction L generalizing b with
  | nil => rfl
  | cons q L ih =>
    rw [List.foldl_cons, ih _ (fun h => hp (List.mem_cons_of_mem _ h)),
      getN_setCell_ne _ _ _ _ _ (fun h => hp (by rw [h]; exact List.mem_cons_self _ _))]

/-- Helper: a fold of cell writes over pairwise-distinct in-bounds
positions stores exactly the written value at each listed position; the
value written depends only on `f`, never on the partially built board. -/
theorem foldSet_mem (f : Nat × Nat → Bool) (L : List (Nat × Nat)) (d1 d2 : Nat)
    (b : List (List Bool)) (hr : Rect b d1 d2)
    (hbd : ∀ q ∈ L, q.1 < d1 ∧ q.2 < d2) (hnd : L.Nodup)
    (p : Nat × Nat) (hp : p ∈ L) :
    getN (L.foldl (fun ns q => setCell ns q.1 q.2 (f q)) b) p = f p := by
  induction L generalizing b with
  | nil => cases hp
  | cons q L ih =>
    rw [List.foldl_cons]
    rcases List.mem_cons.mp hp with hq | hL
    · subst hq
      have hnotL : p ∉ L := (List.nodup_cons.mp hnd).1
      rw [foldSet_not_mem _ _ _ _ hnotL]
      exact getN_setCell_same b d1 d2 p.1 p.2 (f p) hr
        (hbd p (List.mem_cons_self _ _)).1 (hbd p (List.mem_cons_self _ _)).2
    · exact ih (setCell b q.1 q.2 (f q)) (rect_setCell _ _ _ _ _ _ hr)
        (fun r hr' => hbd r (List.mem_cons_of_mem _ hr'))
        (List.nodup_cons.mp hnd).2 hL

/-- Helper: `indList` is the Cartesian product of the two ranges. -/
theorem indList_eq_product (d1 d2 : Nat) :
    indList d1 d2 = (List.range d1).product (List.range d2) := rfl

/-- Helper: membership in `indList`. -/
theorem mem_indList (d1 d2 : Nat) (p : Nat × Nat) :
    p ∈ indList d1 d2 ↔ p.1 < d1 ∧ p.2 < d2 := by
  obtain ⟨i, j⟩ := p
  rw [indList_eq_product]
  simp [List.pair_mem_product]

/-- Helper: `indList` has no duplicate positions. -/
theorem indList_nodup (d1 d2 : Nat) : (indList d1 d2).Nodup := by
  rw [indList_eq_product]
  exact (List.nodup_range d1).product (List.nodup_range d2)

/-- C7: every cell of the board returned by `get_next_space` equals
`check_live` applied to that cell's old value and the neighbour count
taken from the old board; the engine's own board is a plain input of the
computation and is never written (the fold writes only into the fresh
array), so generation N+1 is computed entirely from generation N. -/
theorem get_next_space_from_old_board (s : LifeSpace) (p : Nat × Nat)
    (hp : p ∈ indList s.d1 s.d2) :
    getN s.get_next_space p =
      check_live (getCell s.space ((p.1 : Int), (p.2 : Int)))
        (s.count_live_neighbors (s.get_neighbors ((p.1 : Int), (p.2 : Int)))) :=
  foldSet_mem (fun q => s.get_next_cell ((q.1 : Int), (q.2 : Int)))
    (indList s.d1 s.d2) s.d1 s.d2 (emptyBoard s.d1 s.d2) (rect_emptyBoard _ _)
    (fun q hq => (mem_indList _ _ q).mp hq) (indList_nodup _ _) p hp

/-- Witness for C7 at the 2x2 diagonal board and position (0,0). -/
theorem get_next_space_from_old_board_witness :
    getN sDiag.get_next_space (0, 0) =
      check_live (getCell sDiag.space (((0 : Nat) : Int), ((0 : Nat) : Int)))
        (sDiag.count_live_neighbors (sDiag.get_neighbors (((0 : Nat) : Int), ((0 : Nat) : Int)))) :=
  get_next_space_from_old_board sDiag (0, 0) (by decide)

/-- Helper: `check_valid_index` accepts every index whose coordinates are
at most extent-1 on their axes; no lower bound is ever enforced because
the `any(index) < 0` test compares a boolean with 0. -/
theorem check_valid_of_le (s : LifeSpace) (index : Int × Int)
    (h1 : index.1 ≤ (s.d1 : Int) - 1) (h2 : index.2 ≤ (s.d2 : Int) - 1) :
    s.check_valid_index index = true := by
  have ha : ¬ ((if pyAnyPair index then (1 : Int) else 0) < 0) := by
    cases h : pyAnyPair index <;> simp
  rw [LifeSpace.check_valid_index, if_neg ha, if_neg (by omega), if_neg (by omega)]

/-- Helper: membership in the nine-candidate list. -/
theorem mem_neighborCands (index c : Int × Int) :
    c ∈ neighborCands index ↔
      (c.1 = index.1 - 1 ∨ c.1 = index.1 ∨ c.1 = index.1 + 1) ∧
      (c.2 = index.2 - 1 ∨ c.2 = index.2 ∨ c.2 = index.2 + 1) := by
  obtain ⟨i, j⟩ := index
  obtain ⟨a, b⟩ := c
  simp [neighborCands, Prod.ext_iff]
  tauto

/-- Helper: the nine candidates are pairwise distinct. -/
theorem neighborCands_nodup (index : Int × Int) : (neighborCands index).Nodup := by
  obtain ⟨i, j⟩ := index
  simp [neighborCands, Prod.ext_iff]
  omega

/-- Helper: for an in-range coordinate `m` on an axis of extent at least
2, wrapping an offset coordinate `m-1` or `m+1` never lands back on `m`. -/
theorem wrap_switch_offset_ne (d : Nat) (m n : Int) (hd : 2 ≤ d)
    (hm0 : 0 ≤ m) (hm : m ≤ (d : Int) - 1) (hn : n = m - 1 ∨ n = m + 1) :
    wrap_switch n d ≠ m := by
  rcases hn with h | h <;> (rw [wrap_switch]; split_ifs <;> omega)

/-- C2: the negative-coordinate branch of `check_valid_index` never
fires, so every index with coordinates at most extent-1 is accepted,
including those with a -1 coordinate; with wrap disabled, the neighbours
of a cell on row 0 include the out-of-range index (-1, j); the board read
at a -1 coordinate resolves to the opposite (high) edge; and on the
bounded 3x3 board whose only live cell is the far corner (2,2), cell
(0,0) counts one live neighbour (`count_live_neighbors` sums exactly the
board reads at the neighbour indices, negative ones included). -/
theorem bounded_board_low_edge_wrap :
    (∀ (s : LifeSpace) (index : Int × Int),
        index.1 ≤ (s.d1 : Int) - 1 → index.2 ≤ (s.d2 : Int) - 1 →
        s.check_valid_index index = true) ∧
    (∀ (s : LifeSpace) (j : Int), s.wrap = false → 1 ≤ s.d1 →
        0 ≤ j → j ≤ (s.d2 : Int) - 1 →
        ((-1 : Int), j) ∈ s.get_neighbors (0, j)) ∧
    (∀ (space : List (List Bool)) (j : Int), 1 ≤ space.length →
        getCell space (-1, j) = getCell space ((space.length : Int) - 1, j)) ∧
    sCorner.count_live_neighbors (sCorner.get_neighbors (0, 0)) = 1 := by
  refine ⟨check_valid_of_le, ?_, ?_, by decide⟩
  · intro s j hw hd hj0 hj
    have hne : ((-1 : Int), j) ≠ ((0 : Int), j) := by
      simp [Prod.ext_iff]
    have hmem : ((-1 : Int), j) ∈ neighborCands (0, j) := by
      rw [mem_neighborCands]
      norm_num
    rw [LifeSpace.get_neighbors]
    simp only [hw, Bool.false_eq_true, if_false]
    refine List.mem_filter.mpr ⟨(List.mem_erase_of_ne hne).mpr hmem, ?_⟩
    refine check_valid_of_le s ((-1 : Int), j) ?_ ?_
    · show (-1 : Int) ≤ (s.d1 : Int) - 1
      omega
    · show j ≤ (s.d2 : Int) - 1
      omega
  · intro space j hlen
    have h1 : resolveIdx space.length (-1) = space.length - 1 := by
      rw [resolveIdx, if_pos (by norm_num)]
      omega
    have h2 : resolveIdx space.length ((space.length : Int) - 1) = space.length - 1 := by
      rw [resolveIdx, if_neg (by omega)]
      omega
    simp only [getCell, h1, h2]

/-- Witness for C2 on the 3x3 corner board. -/
theorem bounded_board_low_edge_wrap_witness :
    sCorner.check_valid_index (-1, 0) = true ∧
    ((-1 : Int), (0 : Int)) ∈ sCorner.get_neighbors (0, 0) ∧
    getCell sCorner.space (-1, 0) = getCell sCorner.space ((sCorner.space.length : Int) - 1, 0) :=
  ⟨bounded_board_low_edge_wrap.1 sCorner (-1, 0) (by decide) (by decide),
   bounded_board_low_edge_wrap.2.1 sCorner 0 rfl (by decide) (by decide) (by decide),
   bounded_board_low_edge_wrap.2.2.1 sCorner.space 0 (by decide)⟩

/-- C4 counterexample: on the 1x1 board with wrap enabled, the cell
(0,0) is a valid index, `get_neighbors` returns eight tuples, and the
queried cell's own index is among them — refuting the claim that no
returned tuple ever equals the queried index. -/
theorem get_neighbors_wrap_own_index_cex :
    sOne.check_valid_index (0, 0) = true ∧
    (sOne.get_neighbors (0, 0)).length = 8 ∧
    ((0 : Int), (0 : Int)) ∈ sOne.get_neighbors (0, 0) := by
  decide

/-- C4 amended: with wrap enabled, `get_neighbors` of a valid cell always
returns exactly 8 tuples; when moreover every axis extent is at least 2,
none of them equals the queried cell's own index. -/
theorem get_neighbors_wrap_eight (s : LifeSpace) (i j : Int)
    (hw : s.wrap = true) (hi0 : 0 ≤ i) (hi : i ≤ (s.d1 : Int) - 1)
    (hj0 : 0 ≤ j) (hj : j ≤ (s.d2 : Int) - 1) :
    (s.get_neighbors (i, j)).length = 8 ∧
    (2 ≤ s.d1 → 2 ≤ s.d2 → (i, j) ∉ s.get_neighbors (i, j)) := by
  have hself : (i, j) ∈ neighborCands (i, j) := by
    rw [mem_neighborCands]
    exact ⟨Or.inr (Or.inl rfl), Or.inr (Or.inl rfl)⟩
  rw [LifeSpace.get_neighbors]
  simp only [hw, if_true]
  constructor
  · rw [List.length_map, List.length_erase_of_mem hself]
    rfl
  · intro hd1 hd2 hmem
    rw [List.mem_map] at hmem
    obtain ⟨c, hc, hwc⟩ := hmem
    obtain ⟨hne, hcand⟩ := (List.Nodup.mem_erase_iff (neighborCands_nodup _)).mp hc
    rw [mem_neighborCands] at hcand
    have hw1 : wrap_switch c.1 s.d1 = i := congrArg Prod.fst hwc
    have hw2 : wrap_switch c.2 s.d2 = j := congrArg Prod.snd hwc
    have ha : c.1 = i := by
      rcases hcand.1 with h | h | h
      · exact absurd hw1 (wrap_switch_offset_ne s.d1 i c.1 hd1 hi0 hi (Or.inl h))
      · exact h
      · exact absurd hw1 (wrap_switch_offset_ne s.d1 i c.1 hd1 hi0 hi (Or.inr h))
    have hb : c.2 = j := by
      rcases hcand.2 with h | h | h
      · exact absurd hw2 (wrap_switch_offset_ne s.d2 j c.2 hd2 hj0 hj (Or.inl h))
      · exact h
      · exact absurd hw2 (wrap_switch_offset_ne s.d2 j c.2 hd2 hj0 hj (Or.inr h))
    exact hne (Prod.ext ha hb)

/-- Witness for the amended C4 on the 2x2 all-alive wrapped board. -/
theorem get_neighbors_wrap_eight_witness :
    (sTwo.get_neighbors (0, 0)).length = 8 ∧
    (2 ≤ sTwo.d1 → 2 ≤ sTwo.d2 → ((0 : Int), (0 : Int)) ∉ sTwo.get_neighbors (0, 0)) :=
  get_neighbors_wrap_eight sTwo 0 0 rfl (by decide) (by decide) (by decide) (by decide)

/-- C5 counterexample: `wrap_switch(-2, 3)` returns 2, but -2 modulo 3 is
1, so `wrap_switch` does not compute the coordinate modulo the extent for
arbitrary integers. -/
theorem wrap_switch_not_mod_cex :
    wrap_switch (-2) 3 = 2 ∧ (-2 : Int) % ((3 : Nat) : Int) = 1 ∧
    wrap_switch (-2) 3 ≠ (-2 : Int) % ((3 : Nat) : Int) := by
  decide

/-- C5 amended: on the coordinate range that actually arises in neighbour
generation (an in-range coordinate shifted by at most one, i.e. -1 to d),
`wrap_switch` agrees with the coordinate taken modulo the axis extent,
and `wrap_index` therefore maps such an index to its coordinatewise
modulus; outside that range `wrap_switch` clamps instead of wrapping. -/
theorem wrap_switch_mod_on_neighbor_range :
    (∀ (d : Nat) (n : Int), 1 ≤ d → -1 ≤ n → n ≤ (d : Int) →
        wrap_switch n d = n % (d : Int)) ∧
    (∀ (s : LifeSpace) (index : Int × Int), 1 ≤ s.d1 → 1 ≤ s.d2 →
        -1 ≤ index.1 → index.1 ≤ (s.d1 : Int) → -1 ≤ index.2 → index.2 ≤ (s.d2 : Int) →
        s.wrap_index index = (index.1 % (s.d1 : Int), index.2 % (s.d2 : Int))) := by
  have base : ∀ (d : Nat) (n : Int), 1 ≤ d → -1 ≤ n → n ≤ (d : Int) →
      wrap_switch n d = n % (d : Int) := by
    intro d n hd hlo hhi
    rw [wrap_switch]
    split_ifs with h1 h2
    · have hn : n = -1 := by omega
      subst hn
      have key : ((d : Int) - 1) % (d : Int) = (-1 : Int) % (d : Int) := by
        have h := @Int.add_mul_emod_self_left (-1) ((d : Nat) : Int) 1
        rw [show (-1 : Int) + ((d : Nat) : Int) * 1 = ((d : Nat) : Int) - 1 from by ring] at h
        exact h
      rw [← key, Int.emod_eq_of_lt (by omega) (by omega)]
    · have hn : n = ((d : Nat) : Int) := by omega
      subst hn
      rw [Int.emod_self]
    · rw [Int.emod_eq_of_lt (by omega) (by omega)]
  refine ⟨base, fun s index hd1 hd2 ha1 ha2 hb1 hb2 => ?_⟩
  rw [LifeSpace.wrap_index, base s.d1 index.1 hd1 ha1 ha2, base s.d2 index.2 hd2 hb1 hb2]

/-- Witness for the amended C5: the high-overflow coordinate 2 on extent
2, and a full index on the 2x2 wrapped board. -/
theorem wrap_switch_mod_on_neighbor_range_witness :
    wrap_switch 2 2 = (2 : Int) % ((2 : Nat) : Int) ∧
    sTwo.wrap_index (-1, 2) = ((-1 : Int) % (sTwo.d1 : Int), (2 : Int) % (sTwo.d2 : Int)) :=
  ⟨wrap_switch_mod_on_neighbor_range.1 2 2 (by decide) (by decide) (by decide),
   wrap_switch_mod_on_neighbor_range.2 sTwo (-1, 2) (by decide) (by decide) (by decide)
     (by decide) (by decide) (by decide)⟩
